import Mathlib

/-!
Verification of the WordCounter text-analysis tool
(j1nx73/python-word-counter, src/WordCounter/main.py), as a shallow
embedding in Lean.

Text is modelled as a list of characters; a character stands for one Unicode
scalar value of the decoded Python string.  Python dictionaries keyed by
words (including Counter objects) are modelled as association lists in key
insertion order, which CPython guarantees and on which Counter relies for
its documented first-encountered tie-breaking in most_common.  The Python
floats for the two averages and the reading-time estimate are modelled as
exact rationals; the final rounding of those three fields to two decimal
places (a binary floating-point operation) is not modelled, and no claim
mentions those fields.

Modelling notes on character classes: Python str.lower is modelled on the
ASCII range (only the A-Z mapping matters here, since every non-ASCII
character is replaced by a space in the next cleaning step), and the regex
class \s together with str.strip and str.split is modelled by the six ASCII
whitespace characters; the rare extra Unicode whitespace code points change
nothing in any claim, because every whitespace character is treated
uniformly by the cleaning pipeline.
-/

/-- Python str.lower, restricted to the ASCII case mapping: 65..90 are the
code points of A..Z, and adding 32 yields the corresponding a..z letter. -/
def pyLower (c : Char) : Char :=
  if 65 ≤ c.toNat ∧ c.toNat ≤ 90 then Char.ofNat (c.toNat + 32) else c

/-- The character class a-zA-Z of the cleaning regex: 97..122 are a..z and
65..90 are A..Z. -/
def isAsciiLetter (c : Char) : Bool :=
  decide ((97 ≤ c.toNat ∧ c.toNat ≤ 122) ∨ (65 ≤ c.toNat ∧ c.toNat ≤ 90))

/-- The character class 0-9: code points 48..57. -/
def isAsciiDigit (c : Char) : Bool :=
  decide (48 ≤ c.toNat ∧ c.toNat ≤ 57)

/-- The regex class \s (also the whitespace set of str.strip and
str.split): space, tab, newline, carriage return, vertical tab, form feed. -/
def pyIsSpace (c : Char) : Bool :=
  c == ' ' || c == '\t' || c == '\n' || c == '\r' || c == '\x0b' || c == '\x0c'

/-- One character of the substitution re.sub applied with the pattern that
matches every character outside a-zA-Z and \s, replacing it by a space. -/
def replaceNonLetter (c : Char) : Char :=
  if isAsciiLetter c || pyIsSpace c then c else ' '

/-- The substitution re.sub applied with the pattern matching one-or-more
whitespace characters, replacing each maximal whitespace run by one space.
The Boolean argument records whether the scan is inside a whitespace run
whose replacement space has already been emitted. -/
def collapseAux : Bool → List Char → List Char
  | _, [] => []
  | inRun, c :: cs =>
    if pyIsSpace c then
      if inRun then collapseAux true cs else ' ' :: collapseAux true cs
    else c :: collapseAux false cs

/-- Replace every maximal run of whitespace by a single space. -/
def collapseWS (l : List Char) : List Char :=
  collapseAux false l

/-- Python str.strip with no arguments: drop leading and trailing
whitespace. -/
def pyStrip (l : List Char) : List Char :=
  ((l.dropWhile pyIsSpace).reverse.dropWhile pyIsSpace).reverse

/-- WordCounter.clean_text: lowercase, replace every character that is not
an ASCII letter or whitespace by a space, collapse whitespace runs to one
space, and strip the ends. -/
def clean_text (text : List Char) : List Char :=
  pyStrip (collapseWS ((text.map pyLower).map replaceNonLetter))

/-- Python str.split with no arguments: split on whitespace runs, dropping
empty fragments.  The first argument accumulates the current word in
reverse. -/
def pySplitAux : List Char → List Char → List (List Char)
  | cur, [] => if cur = [] then [] else [cur.reverse]
  | cur, c :: cs =>
    if pyIsSpace c then
      if cur = [] then pySplitAux [] cs else cur.reverse :: pySplitAux [] cs
    else pySplitAux (c :: cur) cs

/-- Split a string into whitespace-separated words. -/
def pySplit (l : List Char) : List (List Char) :=
  pySplitAux [] l

/-- The fixed stop-word set of WordCounter.__init__. -/
def stop_words : List (List Char) :=
  ([ "the", "a", "an", "and", "or", "but", "in", "on", "at", "to", "for",
     "of", "with", "by", "is", "are", "was", "were", "be", "been", "being",
     "have", "has", "had", "do", "does", "did", "will", "would", "could",
     "should", "may", "might", "must", "can", "this", "that", "these",
     "those", "i", "you", "he", "she", "it", "we", "they", "me", "him",
     "her", "us", "them", "my", "your", "his", "its", "our", "their"
   ] : List String).map String.data

/-- WordCounter.extract_words: clean the text, split it into words,
optionally drop stop words, and drop empty strings. -/
def extract_words (text : List Char) (include_stop_words : Bool := true) :
    List (List Char) :=
  let words := pySplit (clean_text text)
  let words :=
    if include_stop_words then words
    else words.filter (fun w => decide (w ∉ stop_words))
  words.filter (fun w => decide (w ≠ []))

/-- The record returned by WordCounter.count_characters. -/
structure CharacterStats where
  total_chars : Nat
  chars_no_spaces : Nat
  alphabetic_chars : Nat
  numeric_chars : Nat
  spaces : Nat
  punctuation : Nat
deriving DecidableEq

/-- WordCounter.count_characters: independent linear scans of the raw
text.  Removing the characters a regex class matches and measuring the
length is the same as counting the characters outside the class. -/
def count_characters (text : List Char) : CharacterStats :=
  { total_chars := text.length
    chars_no_spaces := (text.filter (fun c => decide (c ≠ ' '))).length
    alphabetic_chars := (text.filter isAsciiLetter).length
    numeric_chars := (text.filter isAsciiDigit).length
    spaces := text.count ' '
    punctuation :=
      (text.filter (fun c => !(isAsciiLetter c || isAsciiDigit c || pyIsSpace c))).length }

/-- First-occurrence deduplication: the key order of a CPython dict or
Counter built from a word list.  The first argument is the set of keys
already emitted. -/
def dedupFirstAux [DecidableEq α] (seen : List α) : List α → List α
  | [] => []
  | w :: ws =>
    if w ∈ seen then dedupFirstAux seen ws else w :: dedupFirstAux (w :: seen) ws

/-- The items of collections.Counter(words): each distinct word, in order
of first occurrence, paired with its number of occurrences. -/
def counterItems (words : List (List Char)) : List (List Char × Nat) :=
  (dedupFirstAux [] words).map (fun w => (w, words.count w))

/-- Index of the first occurrence of an element in a list (list length when
absent). -/
def firstIdx [DecidableEq α] (x : α) : List α → Nat
  | [] => 0
  | w :: ws => if w = x then 0 else firstIdx x ws + 1

/-- Insert a pair into a list sorted by count descending, after every pair
of strictly greater or equal count that is already present. -/
def insertByCount (p : List Char × Nat) : List (List Char × Nat) → List (List Char × Nat)
  | [] => [p]
  | q :: qs => if q.2 > p.2 then q :: insertByCount p qs else p :: q :: qs

/-- Stable sort by count descending.  Folding from the right inserts
earlier items last, so an earlier item passes every strictly greater count
and stops in front of the equal counts: ties keep their original order. -/
def sortByCountDesc (l : List (List Char × Nat)) : List (List Char × Nat) :=
  l.foldr insertByCount []

/-- Counter.most_common(n): the n pairs of largest count.  CPython documents
that elements with equal counts are ordered in the order first encountered,
which is a stable descending sort of the counter items by count. -/
def most_common (n : Nat) (freq : List (List Char × Nat)) : List (List Char × Nat) :=
  (sortByCountDesc freq).take n

/-- The runtime value stored under the word_frequency key of an analysis
dict: analyze_text stores a collections.Counter, and save_analysis replaces
it in place by a plain dict with the same items.  Both preserve the item
list (CPython dicts keep insertion order), but they are distinguishable
values at runtime. -/
inductive PyFreq where
  | counter (items : List (List Char × Nat)) : PyFreq
  | plainDict (items : List (List Char × Nat)) : PyFreq
deriving DecidableEq

/-- The items of the stored frequency object, in insertion order. -/
def PyFreq.entries : PyFreq → List (List Char × Nat)
  | counter items => items
  | plainDict items => items

/-- The dict returned by WordCounter.analyze_text.  The three rational
fields stand for Python floats; their final rounding to two decimal places
is not modelled. -/
structure AnalysisResult where
  word_count : Nat
  unique_words : Nat
  sentence_count : Nat
  paragraph_count : Nat
  character_stats : CharacterStats
  word_frequency : PyFreq
  avg_word_length : Rat
  avg_sentence_length : Rat
  reading_time_minutes : Rat
  most_common_words : List (List Char × Nat)
deriving DecidableEq

/-- The sentence terminators of the splitting regex: period, exclamation
mark, question mark. -/
def isSentTerm (c : Char) : Bool :=
  c == '.' || c == '!' || c == '?'

/-- re.split on one-or-more characters of a class: fragments between
maximal separator runs, keeping empty fragments at the ends exactly as
re.split does.  The list argument accumulates the current fragment in
reverse; the Boolean records whether the previous character was a
separator whose fragment has already been emitted. -/
def reSplitAux (p : Char → Bool) : List Char → Bool → List Char → List (List Char)
  | cur, _, [] => [cur.reverse]
  | cur, afterSep, c :: cs =>
    if p c then
      if afterSep then reSplitAux p cur afterSep cs
      else cur.reverse :: reSplitAux p [] true cs
    else reSplitAux p (c :: cur) false cs

/-- re.split with a one-or-more character-class pattern. -/
def reSplit (p : Char → Bool) (l : List Char) : List (List Char) :=
  reSplitAux p [] false l

/-- Python str.split on the literal two-character separator of two newline
characters, scanning left to right without overlap. -/
def splitNNAux : List Char → List Char → List (List Char)
  | cur, '\n' :: '\n' :: cs => cur.reverse :: splitNNAux [] cs
  | cur, c :: cs => splitNNAux (c :: cur) cs
  | cur, [] => [cur.reverse]

/-- Split a text into paragraph fragments at blank-line boundaries. -/
def splitNN (l : List Char) : List (List Char) :=
  splitNNAux [] l

/-- WordCounter.analyze_text. -/
def analyze_text (text : List Char) (include_stop_words : Bool := true) :
    AnalysisResult :=
  let words := extract_words text include_stop_words
  let sentences := ((reSplit isSentTerm text).map pyStrip).filter (fun s => decide (s ≠ []))
  let paragraphs := ((splitNN text).map pyStrip).filter (fun s => decide (s ≠ []))
  let word_freq := counterItems words
  let char_stats := count_characters text
  let avg_word_length : Rat :=
    if words ≠ [] then ((words.map List.length).sum : Rat) / (words.length : Rat) else 0
  let avg_sentence_length : Rat :=
    if sentences ≠ [] then (words.length : Rat) / (sentences.length : Rat) else 0
  let reading_time_minutes : Rat := (words.length : Rat) / 200
  { word_count := words.length
    unique_words := word_freq.length
    sentence_count := sentences.length
    paragraph_count := paragraphs.length
    character_stats := char_stats
    word_frequency := PyFreq.counter word_freq
    avg_word_length := avg_word_length
    avg_sentence_length := avg_sentence_length
    reading_time_minutes := reading_time_minutes
    most_common_words := most_common 10 word_freq }

/-- A file on disk, as analyze_file observes it: its size in bytes and,
when its bytes are valid UTF-8, the decoded text.  A value of none for the
decoded text models bytes that are not valid UTF-8. -/
structure FileData where
  size_bytes : Nat
  decoded : Option (List Char)

/-- The host file system: a partial map from paths to files. -/
def FileSystem : Type :=
  List Char → Option FileData

/-- The exceptions that can escape WordCounter.analyze_file.  The
unicodeDecodeError constructor is included because the spec expects
it, but the code never succeeds in constructing one: its handler calls the
five-argument UnicodeDecodeError constructor with a single argument, which
itself raises TypeError. -/
inductive PyError where
  | fileNotFoundError (msg : List Char) : PyError
  | unicodeDecodeError (msg : List Char) : PyError
  | typeError (msg : List Char) : PyError
deriving DecidableEq

/-- The dict returned by WordCounter.analyze_file: the analyze_text result
with the file_path and file_size_bytes keys added. -/
structure FileAnalysis where
  analysis : AnalysisResult
  file_path : List Char
  file_size_bytes : Nat

/-- WordCounter.analyze_file.  A missing path raises FileNotFoundError,
which the handler replaces by a new FileNotFoundError with the message
"File not found: " followed by the path.  Undecodable bytes raise
UnicodeDecodeError, whose handler evaluates UnicodeDecodeError with one
argument; that constructor takes exactly five arguments, so CPython raises
TypeError with the message recorded here, and that TypeError propagates to
the caller. -/
def analyze_file (fs : FileSystem) (file_path : List Char)
    (include_stop_words : Bool := true) : Except PyError FileAnalysis :=
  match fs file_path with
  | none =>
      Except.error (PyError.fileNotFoundError (("File not found: ".data) ++ file_path))
  | some fd =>
      match fd.decoded with
      | none =>
          Except.error (PyError.typeError ("function takes exactly 5 arguments (1 given)".data))
      | some content =>
          Except.ok
            { analysis := analyze_text content include_stop_words
              file_path := file_path
              file_size_bytes := fd.size_bytes }

/-- The dict returned by WordCounter.compare_texts. -/
structure ComparisonResult where
  text1_stats : AnalysisResult
  text2_stats : AnalysisResult
  unique_to_text1 : List (List Char)
  unique_to_text2 : List (List Char)
  common_words_count : Nat
  similarity_ratio : Rat
deriving DecidableEq

/-- WordCounter.compare_texts: analyze both texts without stop words and
derive set metrics from the two frequency-table key sets.  The Python sets
are modelled by the duplicate-free key lists themselves; difference,
intersection and union become filters and append, and only the sizes and
member sets of these lists are ever claimed, never an order. -/
def compare_texts (text1 text2 : List Char) : ComparisonResult :=
  let analysis1 := analyze_text text1 false
  let analysis2 := analyze_text text2 false
  let words1 := analysis1.word_frequency.entries.map Prod.fst
  let words2 := analysis2.word_frequency.entries.map Prod.fst
  let unique_to_text1 := words1.filter (fun w => decide (w ∉ words2))
  let unique_to_text2 := words2.filter (fun w => decide (w ∉ words1))
  let common_words := words1.filter (fun w => decide (w ∈ words2))
  let union_words := words1 ++ words2.filter (fun w => decide (w ∉ words1))
  { text1_stats := analysis1
    text2_stats := analysis2
    unique_to_text1 := unique_to_text1.take 10
    unique_to_text2 := unique_to_text2.take 10
    common_words_count := common_words.length
    similarity_ratio :=
      if union_words ≠ [] then (common_words.length : Rat) / (union_words.length : Rat)
      else 0 }

/-- WordCounter.save_analysis.  The analysis dict always carries a
word_frequency key here, so the membership test of the source is always
true: the Counter stored there is replaced, in place in the dict the
caller passed, by a plain dict with the same items, and the resulting dict
is then serialized to the output file.  The first component is the
caller's dict after the call; the second is the value written out. -/
def save_analysis (analysis : AnalysisResult) : AnalysisResult × AnalysisResult :=
  let analysis := { analysis with word_frequency := PyFreq.plainDict analysis.word_frequency.entries }
  (analysis, analysis)

/-- The stop-word-excluded vocabulary of a text, following the words of
the spec: the set of distinct words of the tokenized text. -/
def vocabulary (t : List Char) : Finset (List Char) :=
  (extract_words t false).toFinset

/-- The key list of the word-frequency table of a stop-word-excluded
analysis, exactly as compare_texts reads it. -/
def vocabList (t : List Char) : List (List Char) :=
  (analyze_text t false).word_frequency.entries.map Prod.fst

/-- The normal form that clean_text produces: every character is a
lowercase ASCII letter or a space, no two adjacent spaces, and no space at
either end. -/
def CleanNormal (l : List Char) : Prop :=
  (∀ c ∈ l, (97 ≤ c.toNat ∧ c.toNat ≤ 122) ∨ c = ' ') ∧
  l.Chain' (fun a b => ¬(a = ' ' ∧ b = ' ')) ∧
  (∀ c, l.head? = some c → c ≠ ' ') ∧
  (∀ c, l.getLast? = some c → c ≠ ' ')

/-- The text of the scenario in the spec. -/
def scenarioText : List Char :=
  "The quick brown fox. The lazy dog!".data

/-- A file system with no files at all. -/
def emptyFS : FileSystem := fun _ => none

/-- A file system holding one one-byte file, named bad.txt, whose byte is
not valid UTF-8. -/
def invalidUTF8FS : FileSystem :=
  fun p => if p = "bad.txt".data then some { size_bytes := 1, decoded := none } else none

/-- A concrete analysis result used to exhibit the mutation performed by
save_analysis. -/
def sampleResult : AnalysisResult :=
  analyze_text "hello world".data true

/-! ## Projection lemmas for analyze_text and compare_texts -/

theorem entries_counter (l : List (List Char × Nat)) : (PyFreq.counter l).entries = l := rfl

theorem entries_plainDict (l : List (List Char × Nat)) : (PyFreq.plainDict l).entries = l := rfl

theorem analyze_text_word_count (t : List Char) (b : Bool) :
    (analyze_text t b).word_count = (extract_words t b).length := rfl

theorem analyze_text_unique_words (t : List Char) (b : Bool) :
    (analyze_text t b).unique_words = (counterItems (extract_words t b)).length := rfl

theorem analyze_text_word_frequency (t : List Char) (b : Bool) :
    (analyze_text t b).word_frequency = PyFreq.counter (counterItems (extract_words t b)) := rfl

theorem analyze_text_most_common (t : List Char) (b : Bool) :
    (analyze_text t b).most_common_words = most_common 10 (counterItems (extract_words t b)) := rfl

theorem compare_texts_unique1 (t1 t2 : List Char) :
    (compare_texts t1 t2).unique_to_text1 =
      ((vocabList t1).filter (fun w => decide (w ∉ vocabList t2))).take 10 := rfl

theorem compare_texts_unique2 (t1 t2 : List Char) :
    (compare_texts t1 t2).unique_to_text2 =
      ((vocabList t2).filter (fun w => decide (w ∉ vocabList t1))).take 10 := rfl

theorem compare_texts_common (t1 t2 : List Char) :
    (compare_texts t1 t2).common_words_count =
      ((vocabList t1).filter (fun w => decide (w ∈ vocabList t2))).length := rfl

set_option maxHeartbeats 1000000 in
theorem compare_texts_ratio (t1 t2 : List Char) :
    (compare_texts t1 t2).similarity_ratio =
      (if (vocabList t1 ++ (vocabList t2).filter (fun w => decide (w ∉ vocabList t1))) ≠ [] then
        (((vocabList t1).filter (fun w => decide (w ∈ vocabList t2))).length : Rat) /
          ((vocabList t1 ++ (vocabList t2).filter (fun w => decide (w ∉ vocabList t1))).length : Rat)
      else 0) := rfl

/-! ## The scenario claim -/

/-- Claim C1, counterexample: on the scenario text with stop words
included, analyze_text does not return word_count 8 as the spec states:
the text has seven words (The, quick, brown, fox, The, lazy, dog). -/
theorem c1_counterexample :
    ¬ ((analyze_text scenarioText true).word_count = 8 ∧
       (analyze_text scenarioText true).sentence_count = 2 ∧
       (analyze_text scenarioText true).word_frequency.entries.lookup "the".data = some 2) := by
  decide

/-- Claim C1, amended: on the scenario text with stop words included,
analyze_text returns word_count 7, sentence_count 2, and the frequency
table maps the word the to 2. -/
theorem c1_theorem :
    (analyze_text scenarioText true).word_count = 7 ∧
    (analyze_text scenarioText true).sentence_count = 2 ∧
    (analyze_text scenarioText true).word_frequency.entries.lookup "the".data = some 2 := by
  decide

/-! ## File errors and the save mutation -/

/-- Claim C2: on a missing path analyze_file does raise a NotFound error,
but with a replaced message rather than the original error surfaced
unmodified; and on an existing file whose bytes are not valid UTF-8 the
handler tries to build a UnicodeDecodeError from a single argument, a
constructor that takes exactly five, so the call raises TypeError and no
DecodeError ever reaches the caller. -/
theorem c2_theorem :
    analyze_file invalidUTF8FS ("bad.txt".data) true =
      Except.error (PyError.typeError ("function takes exactly 5 arguments (1 given)".data)) ∧
    (∀ msg, analyze_file invalidUTF8FS ("bad.txt".data) true ≠
      Except.error (PyError.unicodeDecodeError msg)) ∧
    analyze_file emptyFS ("missing.txt".data) true =
      Except.error (PyError.fileNotFoundError ("File not found: missing.txt".data)) := by
  refine ⟨rfl, ?_, rfl⟩
  intro msg h
  have h1 : analyze_file invalidUTF8FS ("bad.txt".data) true =
      Except.error (PyError.typeError ("function takes exactly 5 arguments (1 given)".data)) := rfl
  rw [h1] at h
  exact PyError.noConfusion (Except.error.inj h)

/-- Claim C3, counterexample: save_analysis is not free of side effects on
the analysis it is passed: it replaces the stored word-frequency Counter by
a plain dict inside the dict of the caller, so the result record after the
call differs from the record before it. -/
theorem c3_counterexample : (save_analysis sampleResult).1 ≠ sampleResult := by
  decide

/-- Claim C3, amended: apart from the file write, the only effect of
save_analysis is replacing the word_frequency Counter of the passed
analysis, in place, by a plain dict holding the same items; every other
field, and the frequency items themselves, are unchanged, and the value
serialized to the file is exactly the mutated record. -/
theorem c3_theorem (a : AnalysisResult) :
    (save_analysis a).1 =
      { a with word_frequency := PyFreq.plainDict a.word_frequency.entries } ∧
    (save_analysis a).1.word_frequency.entries = a.word_frequency.entries ∧
    (save_analysis a).2 = (save_analysis a).1 ∧
    (save_analysis a).1.word_count = a.word_count ∧
    (save_analysis a).1.unique_words = a.unique_words ∧
    (save_analysis a).1.sentence_count = a.sentence_count ∧
    (save_analysis a).1.paragraph_count = a.paragraph_count ∧
    (save_analysis a).1.character_stats = a.character_stats ∧
    (save_analysis a).1.avg_word_length = a.avg_word_length ∧
    (save_analysis a).1.avg_sentence_length = a.avg_sentence_length ∧
    (save_analysis a).1.reading_time_minutes = a.reading_time_minutes ∧
    (save_analysis a).1.most_common_words = a.most_common_words := by
  exact ⟨rfl, rfl, rfl, rfl, rfl, rfl, rfl, rfl, rfl, rfl, rfl, rfl⟩

/-! ## First-occurrence deduplication -/

theorem mem_dedupFirstAux [DecidableEq α] {seen ws : List α} {x : α} :
    x ∈ dedupFirstAux seen ws ↔ x ∈ ws ∧ x ∉ seen := by
  induction ws generalizing seen with
  | nil => simp [dedupFirstAux]
  | cons w ws ih =>
    rw [dedupFirstAux]
    by_cases hw : w ∈ seen
    · rw [if_pos hw, ih]
      constructor
      · rintro ⟨h1, h2⟩
        exact ⟨List.mem_cons_of_mem _ h1, h2⟩
      · rintro ⟨h1, h2⟩
        rcases List.mem_cons.mp h1 with rfl | h1
        · exact absurd hw h2
        · exact ⟨h1, h2⟩
    · rw [if_neg hw]
      constructor
      · intro h
        rcases List.mem_cons.mp h with rfl | h1
        · exact ⟨List.mem_cons_self _ _, hw⟩
        · obtain ⟨h2, h3⟩ := ih.mp h1
          refine ⟨List.mem_cons_of_mem _ h2, fun hx => h3 (List.mem_cons_of_mem _ hx)⟩
      · rintro ⟨h1, h2⟩
        by_cases hxw : x = w
        · subst hxw; exact List.mem_cons_self _ _
        · rcases List.mem_cons.mp h1 with rfl | h1
          · exact absurd rfl hxw
          · refine List.mem_cons_of_mem _ (ih.mpr ⟨h1, ?_⟩)
            intro hx
            rcases List.mem_cons.mp hx with h | h
            · exact hxw h
            · exact h2 h

theorem nodup_dedupFirstAux [DecidableEq α] (seen ws : List α) :
    (dedupFirstAux seen ws).Nodup := by
  induction ws generalizing seen with
  | nil => simp [dedupFirstAux]
  | cons w ws ih =>
    rw [dedupFirstAux]
    split
    · exact ih _
    · refine List.nodup_cons.mpr ⟨?_, ih _⟩
      intro hmem
      exact (mem_dedupFirstAux.mp hmem).2 (List.mem_cons_self _ _)

theorem length_dedupFirstAux_le [DecidableEq α] (seen ws : List α) :
    (dedupFirstAux seen ws).length ≤ ws.length := by
  induction ws generalizing seen with
  | nil => simp [dedupFirstAux]
  | cons w ws ih =>
    rw [dedupFirstAux]
    split
    · exact Nat.le_succ_of_le (ih _)
    · simpa using Nat.succ_le_succ (ih _)

theorem firstIdx_cons_self [DecidableEq α] (w : α) (ws : List α) :
    firstIdx w (w :: ws) = 0 := by
  simp [firstIdx]

theorem firstIdx_cons_ne [DecidableEq α] {w x : α} (h : w ≠ x) (ws : List α) :
    firstIdx x (w :: ws) = firstIdx x ws + 1 := by
  simp [firstIdx, h]

theorem pairwise_firstIdx_dedupFirstAux [DecidableEq α] (seen ws : List α) :
    (dedupFirstAux seen ws).Pairwise (fun x y => firstIdx x ws < firstIdx y ws) := by
  induction ws generalizing seen with
  | nil => simp [dedupFirstAux]
  | cons w ws ih =>
    rw [dedupFirstAux]
    split
    · rename_i hw
      refine ((ih seen).imp_of_mem ?_)
      intro x y hx hy hxy
      have hxs : x ≠ w := fun h =>
        (mem_dedupFirstAux.mp hx).2 (h ▸ hw)
      have hys : y ≠ w := fun h =>
        (mem_dedupFirstAux.mp hy).2 (h ▸ hw)
      rw [firstIdx_cons_ne (fun h => hxs h.symm), firstIdx_cons_ne (fun h => hys h.symm)]
      omega
    · rename_i hw
      refine List.pairwise_cons.mpr ⟨?_, ?_⟩
      · intro y hy
        have hyw : y ≠ w := fun h =>
          (mem_dedupFirstAux.mp hy).2 (h ▸ List.mem_cons_self _ _)
        rw [firstIdx_cons_self, firstIdx_cons_ne (fun h => hyw h.symm)]
        omega
      · refine ((ih (w :: seen)).imp_of_mem ?_)
        intro x y hx hy hxy
        have hxs : x ≠ w := fun h =>
          (mem_dedupFirstAux.mp hx).2 (h ▸ List.mem_cons_self _ _)
        have hys : y ≠ w := fun h =>
          (mem_dedupFirstAux.mp hy).2 (h ▸ List.mem_cons_self _ _)
        rw [firstIdx_cons_ne (fun h => hxs h.symm), firstIdx_cons_ne (fun h => hys h.symm)]
        omega

theorem counterItems_keys (ws : List (List Char)) :
    (counterItems ws).map Prod.fst = dedupFirstAux [] ws := by
  rw [counterItems, List.map_map]
  exact List.map_id _

/-! ## Count invariants of the analysis -/

/-- Claim C7: for every text and stop-word flag, the analysis satisfies
0 ≤ unique_words ≤ word_count: the number of distinct keys of the
frequency table never exceeds the number of tokenized words. -/
theorem c7_theorem (t : List Char) (b : Bool) :
    0 ≤ (analyze_text t b).unique_words ∧
    (analyze_text t b).unique_words ≤ (analyze_text t b).word_count := by
  refine ⟨Nat.zero_le _, ?_⟩
  rw [analyze_text_unique_words, analyze_text_word_count, counterItems, List.length_map]
  exact length_dedupFirstAux_le _ _

theorem count_beq_bridge (w : List Char) (ws : List (List Char)) :
    @List.count (List Char) List.instBEq w ws =
      @List.count (List Char) instBEqOfDecidableEq w ws := by
  induction ws with
  | nil => rfl
  | cons x xs ih =>
    rw [@List.count_cons (List Char) List.instBEq,
      @List.count_cons (List Char) instBEqOfDecidableEq, ih]
    by_cases h : x = w <;> simp [h]

/-- Claim C9: the counts in the word-frequency table of an analysis sum to
its word_count, for every text and stop-word flag. -/
theorem c9_theorem (t : List Char) (b : Bool) :
    ((analyze_text t b).word_frequency.entries.map Prod.snd).sum =
      (analyze_text t b).word_count := by
  rw [analyze_text_word_frequency, analyze_text_word_count, entries_counter]
  generalize extract_words t b = ws
  rw [counterItems, List.map_map]
  have hcomp : (Prod.snd ∘ fun w : List Char => (w, ws.count w)) = fun w => ws.count w := rfl
  rw [hcomp]
  have hbridge : (fun w : List Char => ws.count w) =
      fun w => @List.count (List Char) instBEqOfDecidableEq w ws := by
    funext w
    exact count_beq_bridge w ws
  rw [hbridge]
  have hnd : (dedupFirstAux [] ws).Nodup := nodup_dedupFirstAux _ _
  have hfin : (dedupFirstAux [] ws).toFinset = ws.toFinset := by
    ext x
    simp [List.mem_toFinset, mem_dedupFirstAux]
  calc ((dedupFirstAux [] ws).map
          fun w => @List.count (List Char) instBEqOfDecidableEq w ws).sum
      = (dedupFirstAux [] ws).toFinset.sum
          (fun w => @List.count (List Char) instBEqOfDecidableEq w ws) :=
        (List.sum_toFinset _ hnd).symm
    _ = ws.toFinset.sum (fun w => @List.count (List Char) instBEqOfDecidableEq w ws) := by
        rw [hfin]
    _ = ws.length := List.sum_toFinset_count_eq_length ws

/-! ## Vocabulary sets of the comparison -/

theorem vocabList_eq (t : List Char) :
    vocabList t = dedupFirstAux [] (extract_words t false) := by
  rw [vocabList, analyze_text_word_frequency, entries_counter]
  exact counterItems_keys _

theorem nodup_vocabList (t : List Char) : (vocabList t).Nodup := by
  rw [vocabList_eq]
  exact nodup_dedupFirstAux _ _

theorem mem_vocabList {t : List Char} {w : List Char} :
    w ∈ vocabList t ↔ w ∈ extract_words t false := by
  rw [vocabList_eq, mem_dedupFirstAux]
  simp

theorem toFinset_vocabList (t : List Char) :
    (vocabList t).toFinset = vocabulary t := by
  ext w
  simp [vocabulary, List.mem_toFinset, mem_vocabList]

theorem common_filter_length (t1 t2 : List Char) :
    ((vocabList t1).filter (fun w => decide (w ∈ vocabList t2))).length =
      (vocabulary t1 ∩ vocabulary t2).card := by
  have hnd : ((vocabList t1).filter (fun w => decide (w ∈ vocabList t2))).Nodup :=
    (nodup_vocabList t1).filter _
  rw [← List.toFinset_card_of_nodup hnd]
  congr 1
  ext w
  simp [List.mem_filter, ← toFinset_vocabList, List.mem_toFinset]

theorem diff_filter_toFinset (t1 t2 : List Char) :
    ((vocabList t1).filter (fun w => decide (w ∉ vocabList t2))).toFinset =
      vocabulary t1 \ vocabulary t2 := by
  ext w
  simp [List.mem_filter, ← toFinset_vocabList, List.mem_toFinset]

theorem union_append_nodup (t1 t2 : List Char) :
    (vocabList t1 ++ (vocabList t2).filter (fun w => decide (w ∉ vocabList t1))).Nodup := by
  refine List.Nodup.append (nodup_vocabList t1) ((nodup_vocabList t2).filter _) ?_
  intro w hw1 hw2
  rw [List.mem_filter] at hw2
  exact absurd hw1 (by simpa using hw2.2)

theorem union_append_toFinset (t1 t2 : List Char) :
    (vocabList t1 ++ (vocabList t2).filter (fun w => decide (w ∉ vocabList t1))).toFinset =
      vocabulary t1 ∪ vocabulary t2 := by
  ext w
  simp only [List.toFinset_append, Finset.mem_union, List.mem_toFinset, List.mem_filter,
    ← toFinset_vocabList]
  constructor
  · rintro (h | ⟨h, _⟩)
    · exact Or.inl (by simpa using h)
    · exact Or.inr (by simpa using h)
  · rintro (h | h)
    · exact Or.inl (by simpa using h)
    · by_cases h1 : w ∈ vocabList t1
      · exact Or.inl (by simpa using h1)
      · exact Or.inr ⟨by simpa using h, by simpa using h1⟩

theorem union_append_length (t1 t2 : List Char) :
    (vocabList t1 ++ (vocabList t2).filter (fun w => decide (w ∉ vocabList t1))).length =
      (vocabulary t1 ∪ vocabulary t2).card := by
  rw [← List.toFinset_card_of_nodup (union_append_nodup t1 t2), union_append_toFinset]

theorem union_append_eq_nil_iff (t1 t2 : List Char) :
    (vocabList t1 ++ (vocabList t2).filter (fun w => decide (w ∉ vocabList t1))) = [] ↔
      vocabulary t1 ∪ vocabulary t2 = ∅ := by
  constructor
  · intro h
    rw [← union_append_toFinset, h]
    rfl
  · intro h
    have := union_append_length t1 t2
    rw [h, Finset.card_empty] at this
    exact List.length_eq_zero.mp this

/-- The similarity ratio computed by compare_texts, restated over the
vocabulary Finsets of the spec. -/
theorem similarity_ratio_eq (t1 t2 : List Char) :
    (compare_texts t1 t2).similarity_ratio =
      (if vocabulary t1 ∪ vocabulary t2 = ∅ then 0
       else ((vocabulary t1 ∩ vocabulary t2).card : Rat) /
         ((vocabulary t1 ∪ vocabulary t2).card : Rat)) := by
  rw [compare_texts_ratio]
  by_cases h : vocabulary t1 ∪ vocabulary t2 = ∅
  · have hl := (union_append_eq_nil_iff t1 t2).mpr h
    rw [if_neg (fun hc => hc hl), if_pos h]
  · have hl : (vocabList t1 ++ (vocabList t2).filter (fun w => decide (w ∉ vocabList t1))) ≠ [] :=
      fun hl => h ((union_append_eq_nil_iff t1 t2).mp hl)
    rw [if_pos hl, if_neg h, common_filter_length, union_append_length]

/-- Claim C5: the similarity ratio of compare_texts is the Jaccard index
of the two stop-word-excluded vocabularies, is 0 when both vocabularies
are empty, and always lies between 0 and 1. -/
theorem c5_theorem (t1 t2 : List Char) :
    (compare_texts t1 t2).similarity_ratio =
      (if vocabulary t1 ∪ vocabulary t2 = ∅ then 0
       else ((vocabulary t1 ∩ vocabulary t2).card : Rat) /
         ((vocabulary t1 ∪ vocabulary t2).card : Rat)) ∧
    0 ≤ (compare_texts t1 t2).similarity_ratio ∧
    (compare_texts t1 t2).similarity_ratio ≤ 1 := by
  refine ⟨similarity_ratio_eq t1 t2, ?_, ?_⟩
  · rw [similarity_ratio_eq]
    split
    · exact le_refl 0
    · exact div_nonneg (Nat.cast_nonneg _) (Nat.cast_nonneg _)
  · rw [similarity_ratio_eq]
    split
    · exact zero_le_one
    · rename_i h
      have hpos : 0 < ((vocabulary t1 ∪ vocabulary t2).card : Rat) := by
        have hc : 0 < (vocabulary t1 ∪ vocabulary t2).card :=
          Finset.card_pos.mpr (Finset.nonempty_iff_ne_empty.mpr h)
        exact_mod_cast hc
      rw [div_le_one hpos]
      have hsub : vocabulary t1 ∩ vocabulary t2 ⊆ vocabulary t1 ∪ vocabulary t2 :=
        Finset.inter_subset_left.trans Finset.subset_union_left
      exact_mod_cast Finset.card_le_card hsub

/-- Claim C8: comparing a text with itself, given a non-empty
stop-word-excluded vocabulary, yields similarity ratio 1 and empty
unique-to-either lists. -/
theorem c8_theorem (t : List Char) (h : extract_words t false ≠ []) :
    (compare_texts t t).similarity_ratio = 1 ∧
    (compare_texts t t).unique_to_text1 = [] ∧
    (compare_texts t t).unique_to_text2 = [] := by
  have hfilter : (vocabList t).filter (fun w => decide (w ∉ vocabList t)) = [] := by
    rw [List.filter_eq_nil_iff]
    intro w hw
    simp [hw]
  have hne : vocabList t ≠ [] := by
    obtain ⟨w, hw⟩ := List.exists_mem_of_ne_nil _ h
    intro h0
    have hmem : w ∈ vocabList t := mem_vocabList.mpr hw
    rw [h0] at hmem
    exact List.not_mem_nil _ hmem
  refine ⟨?_, ?_, ?_⟩
  · rw [compare_texts_ratio, hfilter, List.append_nil]
    have hcommon : (vocabList t).filter (fun w => decide (w ∈ vocabList t)) = vocabList t := by
      rw [List.filter_eq_self]
      intro w hw
      simpa using hw
    rw [if_pos hne, hcommon]
    have h0 : (vocabList t).length ≠ 0 := fun hl => hne (List.length_eq_zero.mp hl)
    exact div_self (by exact_mod_cast h0)
  · rw [compare_texts_unique1, hfilter]
    rfl
  · rw [compare_texts_unique2, hfilter]
    rfl

/-- Witness for claim C8 at a concrete text with a non-empty
stop-word-excluded vocabulary. -/
theorem c8_witness :
    extract_words "hello world".data false ≠ [] ∧
    ((compare_texts "hello world".data "hello world".data).similarity_ratio = 1 ∧
     (compare_texts "hello world".data "hello world".data).unique_to_text1 = [] ∧
     (compare_texts "hello world".data "hello world".data).unique_to_text2 = []) :=
  ⟨by decide, c8_theorem ("hello world".data) (by decide)⟩

/-- Claim C10: compare_texts is symmetric in its aggregate metrics, and
the two untruncated difference vocabularies swap roles between the two
call orders: one list serves as the pre-truncation unique-to-text1 of one
call and as the pre-truncation unique-to-text2 of the swapped call. -/
theorem c10_theorem (t1 t2 : List Char) :
    (compare_texts t1 t2).similarity_ratio = (compare_texts t2 t1).similarity_ratio ∧
    (compare_texts t1 t2).common_words_count = (compare_texts t2 t1).common_words_count ∧
    (∃ u : List (List Char),
      u.toFinset = vocabulary t1 \ vocabulary t2 ∧
      (compare_texts t1 t2).unique_to_text1 = u.take 10 ∧
      (compare_texts t2 t1).unique_to_text2 = u.take 10) ∧
    (∃ v : List (List Char),
      v.toFinset = vocabulary t2 \ vocabulary t1 ∧
      (compare_texts t1 t2).unique_to_text2 = v.take 10 ∧
      (compare_texts t2 t1).unique_to_text1 = v.take 10) := by
  refine ⟨?_, ?_, ?_, ?_⟩
  · rw [similarity_ratio_eq, similarity_ratio_eq, Finset.union_comm, Finset.inter_comm]
  · rw [compare_texts_common, compare_texts_common, common_filter_length, common_filter_length,
      Finset.inter_comm]
  · exact ⟨(vocabList t1).filter (fun w => decide (w ∉ vocabList t2)),
      diff_filter_toFinset t1 t2, compare_texts_unique1 t1 t2, compare_texts_unique2 t2 t1⟩
  · exact ⟨(vocabList t2).filter (fun w => decide (w ∉ vocabList t1)),
      diff_filter_toFinset t2 t1, compare_texts_unique2 t1 t2, compare_texts_unique1 t2 t1⟩

/-! ## The stable descending sort behind most_common -/

theorem insertByCount_perm (p : List Char × Nat) (l : List (List Char × Nat)) :
    List.Perm (insertByCount p l) (p :: l) := by
  induction l with
  | nil => exact List.Perm.refl _
  | cons q qs ih =>
    rw [insertByCount]
    split
    · exact (ih.cons q).trans (List.Perm.swap p q qs)
    · exact List.Perm.refl _

theorem sortByCountDesc_perm (l : List (List Char × Nat)) :
    List.Perm (sortByCountDesc l) l := by
  induction l with
  | nil => exact List.Perm.refl _
  | cons p ps ih =>
    have hstep : sortByCountDesc (p :: ps) = insertByCount p (sortByCountDesc ps) := rfl
    rw [hstep]
    exact (insertByCount_perm p _).trans (ih.cons p)

theorem insertByCount_pairwise {T : (List Char × Nat) → (List Char × Nat) → Prop}
    {p : List Char × Nat} {l : List (List Char × Nat)}
    (hl : l.Pairwise (fun a b => b.2 < a.2 ∨ (a.2 = b.2 ∧ T a b)))
    (hp : ∀ q ∈ l, p.2 = q.2 → T p q) :
    (insertByCount p l).Pairwise (fun a b => b.2 < a.2 ∨ (a.2 = b.2 ∧ T a b)) := by
  induction l with
  | nil => simp [insertByCount]
  | cons q qs ih =>
    rw [insertByCount]
    rw [List.pairwise_cons] at hl
    split
    · rename_i hq
      refine List.pairwise_cons.mpr
        ⟨?_, ih hl.2 (fun r hr h2 => hp r (List.mem_cons_of_mem _ hr) h2)⟩
      intro r hr
      have hmem : r = p ∨ r ∈ qs := by
        have h' := (insertByCount_perm p qs).mem_iff.mp hr
        simpa using h'
      rcases hmem with rfl | hr'
      · exact Or.inl hq
      · exact hl.1 r hr'
    · rename_i hq
      have hq' : q.2 ≤ p.2 := Nat.le_of_not_lt hq
      refine List.pairwise_cons.mpr ⟨?_, List.pairwise_cons.mpr hl⟩
      intro r hr
      rcases List.mem_cons.mp hr with rfl | hr'
      · rcases Nat.lt_or_ge r.2 p.2 with hlt | hge
        · exact Or.inl hlt
        · have heq : p.2 = r.2 := Nat.le_antisymm hge hq'
          exact Or.inr ⟨heq, hp r (List.mem_cons_self _ _) heq⟩
      · rcases hl.1 r hr' with hlt | ⟨heq, _⟩
        · exact Or.inl (Nat.lt_of_lt_of_le hlt hq')
        · rcases Nat.lt_or_ge r.2 p.2 with h1 | h1
          · exact Or.inl h1
          · have hpe : p.2 = r.2 := Nat.le_antisymm h1 (heq ▸ hq')
            exact Or.inr ⟨hpe, hp r (List.mem_cons_of_mem _ hr') hpe⟩

theorem sortByCountDesc_pairwise {T : (List Char × Nat) → (List Char × Nat) → Prop}
    {l : List (List Char × Nat)}
    (hl : l.Pairwise (fun a b => a.2 = b.2 → T a b)) :
    (sortByCountDesc l).Pairwise (fun a b => b.2 < a.2 ∨ (a.2 = b.2 ∧ T a b)) := by
  induction l with
  | nil => simp [sortByCountDesc]
  | cons p ps ih =>
    rw [List.pairwise_cons] at hl
    have hstep : sortByCountDesc (p :: ps) = insertByCount p (sortByCountDesc ps) := rfl
    rw [hstep]
    refine insertByCount_pairwise (ih hl.2) ?_
    intro q hq h2
    exact hl.1 q ((sortByCountDesc_perm ps).subset hq) h2

/-- Claim C4: most_common_words is the first ten entries of the unique
reordering of the word-frequency table that is sorted by count descending
and, between equal counts, by the position of the first occurrence of the
word in the tokenized text; in particular it holds at most ten pairs. -/
theorem c4_theorem (t : List Char) (b : Bool) :
    ∃ ranked : List (List Char × Nat),
      List.Perm ranked (analyze_text t b).word_frequency.entries ∧
      ranked.Pairwise (fun p q => q.2 < p.2 ∨
        (p.2 = q.2 ∧ firstIdx p.1 (extract_words t b) < firstIdx q.1 (extract_words t b))) ∧
      (analyze_text t b).most_common_words = ranked.take 10 ∧
      (analyze_text t b).most_common_words.length ≤ 10 := by
  refine ⟨sortByCountDesc (counterItems (extract_words t b)), ?_, ?_, ?_, ?_⟩
  · rw [analyze_text_word_frequency, entries_counter]
    exact sortByCountDesc_perm _
  · refine sortByCountDesc_pairwise ?_
    have hpw := pairwise_firstIdx_dedupFirstAux ([] : List (List Char)) (extract_words t b)
    rw [counterItems, List.pairwise_map]
    exact hpw.imp (fun h => fun _ => h)
  · rw [analyze_text_most_common]
    rfl
  · rw [analyze_text_most_common, most_common, List.length_take]
    omega

/-! ## Character facts for the cleaning pipeline -/

theorem toNat_ofNat_valid {n : Nat} (h : n < 55296) : (Char.ofNat n).toNat = n := by
  rw [Char.ofNat, dif_pos (Or.inl h)]
  rfl

theorem pyLower_eq_self {c : Char} (h : ¬(65 ≤ c.toNat ∧ c.toNat ≤ 90)) :
    pyLower c = c := by
  rw [pyLower, if_neg h]

theorem pyLower_not_upper (c : Char) :
    ¬(65 ≤ (pyLower c).toNat ∧ (pyLower c).toNat ≤ 90) := by
  rw [pyLower]
  split
  · rename_i h
    rw [toNat_ofNat_valid (by omega)]
    omega
  · rename_i h
    exact h

theorem pyIsSpace_space : pyIsSpace ' ' = true := by decide

theorem toNat_le_of_pyIsSpace {c : Char} (h : pyIsSpace c = true) : c.toNat ≤ 32 := by
  rw [pyIsSpace] at h
  simp only [Bool.or_eq_true, beq_iff_eq] at h
  rcases h with ((((rfl | rfl) | rfl) | rfl) | rfl) | rfl <;> decide

theorem pyIsSpace_eq_false_of_letter {c : Char} (h : 97 ≤ c.toNat ∧ c.toNat ≤ 122) :
    pyIsSpace c = false := by
  by_contra hc
  have h32 := toNat_le_of_pyIsSpace (Bool.of_not_eq_false hc)
  omega

theorem pyIsSpace_space_only {c : Char}
    (hc : (97 ≤ c.toNat ∧ c.toNat ≤ 122) ∨ c = ' ') (hs : pyIsSpace c = true) :
    c = ' ' := by
  rcases hc with hc | rfl
  · exact absurd hs (by rw [pyIsSpace_eq_false_of_letter hc]; simp)
  · rfl

theorem replaceNonLetter_maps (c : Char) :
    (97 ≤ (replaceNonLetter (pyLower c)).toNat ∧ (replaceNonLetter (pyLower c)).toNat ≤ 122) ∨
      pyIsSpace (replaceNonLetter (pyLower c)) = true := by
  rw [replaceNonLetter]
  split
  · rename_i hkeep
    rcases Bool.or_eq_true _ _ |>.mp hkeep with hl | hs
    · left
      rw [isAsciiLetter, decide_eq_true_iff] at hl
      rcases hl with h1 | h2
      · exact h1
      · exact absurd h2 (pyLower_not_upper c)
    · right
      exact hs
  · right
    exact pyIsSpace_space


/-! ## Properties of whitespace collapsing -/

theorem mem_collapseAux {c : Char} :
    ∀ {b : Bool} {l : List Char}, c ∈ collapseAux b l →
      c = ' ' ∨ (c ∈ l ∧ pyIsSpace c = false) := by
  intro b l
  induction l generalizing b with
  | nil =>
    intro h
    simp [collapseAux] at h
  | cons d ds ih =>
    intro h
    rw [collapseAux] at h
    split at h
    · split at h
      · rcases ih h with h1 | ⟨h1, h2⟩
        · exact Or.inl h1
        · exact Or.inr ⟨List.mem_cons_of_mem _ h1, h2⟩
      · rcases List.mem_cons.mp h with rfl | h'
        · exact Or.inl rfl
        · rcases ih h' with h1 | ⟨h1, h2⟩
          · exact Or.inl h1
          · exact Or.inr ⟨List.mem_cons_of_mem _ h1, h2⟩
    · rename_i hd
      rcases List.mem_cons.mp h with rfl | h'
      · exact Or.inr ⟨List.mem_cons_self _ _, by simpa using hd⟩
      · rcases ih h' with h1 | ⟨h1, h2⟩
        · exact Or.inl h1
        · exact Or.inr ⟨List.mem_cons_of_mem _ h1, h2⟩

theorem head_collapseAux_true :
    ∀ {l : List Char} {c : Char},
      (collapseAux true l).head? = some c → pyIsSpace c = false := by
  intro l
  induction l with
  | nil =>
    intro c h
    simp [collapseAux] at h
  | cons d ds ih =>
    intro c h
    rw [collapseAux] at h
    split at h
    · exact ih h
    · rename_i hd
      rw [List.head?_cons, Option.some_inj] at h
      subst h
      simpa using hd

theorem chain_collapseAux (l : List Char) (b : Bool) :
    (collapseAux b l).Chain' (fun a b => ¬(a = ' ' ∧ b = ' ')) := by
  induction l generalizing b with
  | nil => simp [collapseAux]
  | cons d ds ih =>
    rw [collapseAux]
    split
    · split
      · exact ih true
      · refine List.chain'_cons'.mpr ⟨?_, ih true⟩
        intro y hy hcon
        have hns := head_collapseAux_true hy
        rw [hcon.2, pyIsSpace_space] at hns
        exact Bool.noConfusion hns
    · rename_i hd
      refine List.chain'_cons'.mpr ⟨?_, ih false⟩
      intro y hy hcon
      exact hd (by rw [hcon.1]; exact pyIsSpace_space)

theorem collapseAux_eq_self :
    ∀ (l : List Char), (∀ c ∈ l, pyIsSpace c = true → c = ' ') →
      l.Chain' (fun a b => ¬(a = ' ' ∧ b = ' ')) →
      (collapseAux false l = l ∧
        ((∀ c, l.head? = some c → pyIsSpace c = false) → collapseAux true l = l)) := by
  intro l
  induction l with
  | nil =>
    intro _ _
    exact ⟨rfl, fun _ => rfl⟩
  | cons d ds ih =>
    intro hso hch
    have hso' : ∀ c ∈ ds, pyIsSpace c = true → c = ' ' :=
      fun c hc => hso c (List.mem_cons_of_mem _ hc)
    have hch' : ds.Chain' (fun a b => ¬(a = ' ' ∧ b = ' ')) := hch.tail
    by_cases hd : pyIsSpace d = true
    · have hd' : d = ' ' := hso d (List.mem_cons_self _ _) hd
      constructor
      · rw [collapseAux, if_pos hd]
        have hdshead : ∀ c, ds.head? = some c → pyIsSpace c = false := by
          intro c hc
          have hR := (List.chain'_cons'.mp hch).1 c hc
          have hcs : c ≠ ' ' := fun hcsp => hR ⟨hd', hcsp⟩
          by_contra hcon
          have := hso' c (List.mem_of_mem_head? hc) (by simpa using hcon)
          exact hcs this
        rw [(ih hso' hch').2 hdshead, hd']
        simp
      · intro hhead
        have := hhead d (List.head?_cons)
        rw [hd] at this
        exact Bool.noConfusion this
    · have hdf : pyIsSpace d = false := by simpa using hd
      have htail : collapseAux false ds = ds := (ih hso' hch').1
      constructor
      · rw [collapseAux, if_neg hd, htail]
      · intro _
        rw [collapseAux, if_neg hd, htail]

/-! ## Properties of stripping -/

theorem head_dropWhile_not (p : Char → Bool) :
    ∀ {l : List Char} {c : Char}, (l.dropWhile p).head? = some c → p c = false := by
  intro l
  induction l with
  | nil =>
    intro c h
    simp [List.dropWhile] at h
  | cons d ds ih =>
    intro c h
    rw [List.dropWhile_cons] at h
    split at h
    · exact ih h
    · rename_i hd
      rw [List.head?_cons, Option.some_inj] at h
      subst h
      simpa using hd

theorem dropWhile_eq_self_of_head (p : Char → Bool) {l : List Char}
    (h : ∀ c, l.head? = some c → p c = false) : l.dropWhile p = l := by
  cases l with
  | nil => rfl
  | cons d ds =>
    have hd := h d List.head?_cons
    rw [List.dropWhile_cons, if_neg (by simp [hd])]

theorem mem_pyStrip {c : Char} {l : List Char} (h : c ∈ pyStrip l) : c ∈ l := by
  rw [pyStrip, List.mem_reverse] at h
  have h1 := (List.dropWhile_sublist pyIsSpace).subset h
  rw [List.mem_reverse] at h1
  exact (List.dropWhile_sublist pyIsSpace).subset h1

theorem chain_pyStrip {l : List Char}
    (h : l.Chain' (fun a b => ¬(a = ' ' ∧ b = ' '))) :
    (pyStrip l).Chain' (fun a b => ¬(a = ' ' ∧ b = ' ')) := by
  rw [pyStrip]
  have h1 : (l.dropWhile pyIsSpace).Chain' (fun a b => ¬(a = ' ' ∧ b = ' ')) :=
    h.suffix (List.dropWhile_suffix _)
  have h2 : ((l.dropWhile pyIsSpace).reverse).Chain' (fun a b => ¬(a = ' ' ∧ b = ' ')) :=
    List.chain'_reverse.mpr (h1.imp (fun a b hab hc => hab ⟨hc.2, hc.1⟩))
  have h3 := h2.suffix (List.dropWhile_suffix pyIsSpace)
  exact List.chain'_reverse.mpr (h3.imp (fun a b hab hc => hab ⟨hc.2, hc.1⟩))

theorem getLast_pyStrip {l : List Char} {c : Char} (h : (pyStrip l).getLast? = some c) :
    pyIsSpace c = false := by
  rw [pyStrip, List.getLast?_reverse] at h
  exact head_dropWhile_not _ h

theorem head_pyStrip {l : List Char} {c : Char} (h : (pyStrip l).head? = some c) :
    pyIsSpace c = false := by
  rw [pyStrip, List.head?_reverse] at h
  obtain ⟨t, ht⟩ := List.dropWhile_suffix (l := (l.dropWhile pyIsSpace).reverse) pyIsSpace
  have hg : ((l.dropWhile pyIsSpace).reverse).getLast? = some c := by
    rw [← ht, List.getLast?_append, h]
    rfl
  rw [List.getLast?_reverse] at hg
  exact head_dropWhile_not _ hg

theorem pyStrip_eq_self {l : List Char}
    (hhead : ∀ c, l.head? = some c → pyIsSpace c = false)
    (hlast : ∀ c, l.getLast? = some c → pyIsSpace c = false) :
    pyStrip l = l := by
  rw [pyStrip, dropWhile_eq_self_of_head _ hhead,
    dropWhile_eq_self_of_head _ (fun c hc => hlast c (by rwa [List.head?_reverse] at hc))]
  exact List.reverse_reverse l

/-! ## Normal form of cleaned text -/

theorem clean_text_normal (t : List Char) : CleanNormal (clean_text t) := by
  rw [CleanNormal]
  have hM : ∀ c ∈ (t.map pyLower).map replaceNonLetter,
      (97 ≤ c.toNat ∧ c.toNat ≤ 122) ∨ pyIsSpace c = true := by
    intro c hc
    rw [List.mem_map] at hc
    obtain ⟨d, hd, rfl⟩ := hc
    rw [List.mem_map] at hd
    obtain ⟨e, _, rfl⟩ := hd
    exact replaceNonLetter_maps e
  refine ⟨?_, ?_, ?_, ?_⟩
  · intro c hc
    rw [clean_text, collapseWS] at hc
    have hc1 := mem_pyStrip hc
    rcases mem_collapseAux hc1 with h1 | ⟨h1, h2⟩
    · exact Or.inr h1
    · rcases hM c h1 with h3 | h3
      · exact Or.inl h3
      · rw [h3] at h2
        exact Bool.noConfusion h2
  · rw [clean_text, collapseWS]
    exact chain_pyStrip (chain_collapseAux _ false)
  · intro c hc
    rw [clean_text] at hc
    have hns := head_pyStrip hc
    intro hsp
    rw [hsp, pyIsSpace_space] at hns
    exact Bool.noConfusion hns
  · intro c hc
    rw [clean_text] at hc
    have hns := getLast_pyStrip hc
    intro hsp
    rw [hsp, pyIsSpace_space] at hns
    exact Bool.noConfusion hns

theorem clean_text_of_normal {l : List Char} (h : CleanNormal l) : clean_text l = l := by
  obtain ⟨hchars, hchain, hhead, hlast⟩ := h
  have hmap1 : l.map pyLower = l := by
    have hid : ∀ c ∈ l, pyLower c = c := by
      intro c hc
      rcases hchars c hc with h1 | rfl
      · exact pyLower_eq_self (by omega)
      · exact pyLower_eq_self (by decide)
    rw [List.map_congr_left hid, List.map_id']
  have hmap2 : l.map replaceNonLetter = l := by
    have hid : ∀ c ∈ l, replaceNonLetter c = c := by
      intro c hc
      rw [replaceNonLetter]
      rcases hchars c hc with h1 | rfl
      · have hA : isAsciiLetter c = true := by
          rw [isAsciiLetter]
          exact decide_eq_true (Or.inl h1)
        rw [if_pos (by simp [hA])]
      · rw [if_pos (by simp [pyIsSpace_space])]
    rw [List.map_congr_left hid, List.map_id']
  have hso : ∀ c ∈ l, pyIsSpace c = true → c = ' ' :=
    fun c hc hs => pyIsSpace_space_only (hchars c hc) hs
  have hcol : collapseAux false l = l := (collapseAux_eq_self l hso hchain).1
  have hh : ∀ c, l.head? = some c → pyIsSpace c = false := by
    intro c hc
    have hmem := List.mem_of_mem_head? (l := l) (a := c) hc
    rcases hchars c hmem with h1 | rfl
    · exact pyIsSpace_eq_false_of_letter h1
    · exact absurd rfl (hhead ' ' hc)
  have hl : ∀ c, l.getLast? = some c → pyIsSpace c = false := by
    intro c hc
    have hmem := List.mem_of_getLast?_eq_some hc
    rcases hchars c hmem with h1 | rfl
    · exact pyIsSpace_eq_false_of_letter h1
    · exact absurd rfl (hlast ' ' hc)
  rw [clean_text, hmap1, hmap2, collapseWS, hcol]
  exact pyStrip_eq_self hh hl

/-- Claim C6: the text normalizer is idempotent: cleaning lowercases,
replaces every character outside ASCII letters and whitespace by a space,
collapses whitespace runs and trims the ends, and applying it to its own
output changes nothing. -/
theorem c6_theorem (t : List Char) :
    clean_text (clean_text t) = clean_text t :=
  clean_text_of_normal (clean_text_normal t)
